import Mathlib

/-!
Verification of `antenati.py` (Portale Antenati gallery downloader) against its
specification, via a shallow embedding in Lean 4.

Embedding conventions:
* Machine integers are `Nat`; HTTP payloads are `List Nat` (byte lists).
* Fallible code (`raise RuntimeError`) is modelled with `Except Err`.
* Third-party pure helpers (`slugify`, `mimetypes.guess_extension`,
  `email.Message.get_content_type`, `re.findall`, `re.search`,
  `str.splitlines`) are modelled on their observable behaviour for the ASCII
  inputs this program feeds them; each model carries a doc comment.
* The concurrent `run` method is modelled as a function of an explicit
  completion order (a permutation of the unit indices); thread-scheduling
  nondeterminism is captured by quantifying over that order.  Calls to the
  progress sink, unit submission, unit termination and the final re-raise are
  recorded in an event trace.
-/

/-- ASCII lower-casing of a single character, as `str.lower` /
python-slugify do for ASCII letters: `A`..`Z` (65..90) map to
`a`..`z` (97..122), everything else is unchanged. -/
def lowerChar (c : Char) : Char :=
  if 65 ≤ c.toNat ∧ c.toNat ≤ 90 then Char.ofNat (c.toNat + 32) else c

/-- Is the character an ASCII lower-case letter or digit (the characters
python-slugify keeps in its output)? -/
def isAsciiAlnumLower (c : Char) : Bool :=
  decide ((97 ≤ c.toNat ∧ c.toNat ≤ 122) ∨ (48 ≤ c.toNat ∧ c.toNat ≤ 57))

/-- One normalization step of python-slugify on ASCII input: keep a
lower-cased alphanumeric character, turn every other character into a
separator (here a space, later collapsed). -/
def sepChar (c : Char) : Char :=
  if isAsciiAlnumLower (lowerChar c) then lowerChar c else ' '

/-- Maximal runs of characters satisfying `p`, in order.  Used to model both
python-slugify's word splitting and `re.findall` with a `\d+` pattern
(a maximal-munch repetition).  Structural recursion so that it evaluates
inside the kernel. -/
def runsBy (p : Char → Bool) : List Char → List (List Char)
  | [] => []
  | [c] => if p c then [[c]] else []
  | c :: d :: cs =>
    if p c then
      if p d then
        match runsBy p (d :: cs) with
        | w :: ws => (c :: w) :: ws
        | [] => [[c]]
      else [c] :: runsBy p (d :: cs)
    else runsBy p (d :: cs)

/-- Join character runs with a single separator character between
consecutive runs (no leading or trailing separator). -/
def joinSep (sep : Char) : List (List Char) → List Char
  | [] => []
  | [w] => w
  | w :: ws => w ++ sep :: joinSep sep ws

/-- Predicate for word characters after `sepChar` normalization. -/
def notSpace (c : Char) : Bool := c ≠ ' '

/-- Model of `slugify.slugify` restricted to the ASCII fragment this program
relies on: lower-case the input, keep ASCII alphanumerics, replace every
other character by a separator, collapse separator runs into a single
hyphen and strip leading/trailing separators.  (Unicode transliteration is
not modelled; it does not affect the algebraic laws verified here.) -/
def slugify (s : String) : String :=
  String.mk (joinSep '-' (runsBy notSpace (s.data.map sepChar)))

/-- Model of the CPython `mimetypes` strict default table, restricted to the
content types exercised here.  For every type present the value is what
`mimetypes.guess_extension` returns on CPython 3 (in particular
`application/octet-stream` maps to `.bin`). -/
def types_map : List (String × String) :=
  [("application/json", ".json"),
   ("application/octet-stream", ".bin"),
   ("application/pdf", ".pdf"),
   ("image/gif", ".gif"),
   ("image/jpeg", ".jpg"),
   ("image/png", ".png"),
   ("image/tiff", ".tiff"),
   ("text/html", ".html"),
   ("text/plain", ".txt")]

/-- Model of `mimetypes.guess_extension` (strict mode, default table): the
extension mapped to the content type, or `none` when the table has no
entry. -/
def guess_extension (content_type : String) : Option String :=
  (types_map.find? (fun e => e.fst = content_type)).map (fun e => e.snd)

/-- Strip leading and trailing spaces from a character list (models
`str.strip` for the space-only case relevant to header values). -/
def trimSpaces (l : List Char) : List Char :=
  ((l.dropWhile (fun c => c = ' ')).reverse.dropWhile (fun c => c = ' ')).reverse

/-- Model of `AntenatiDownloader.__get_content_type` (src/antenati.py lines
84-89), which feeds the raw `Content-Type` header value to
`email.message.Message.get_content_type`: take the part before the first
`;`, strip surrounding spaces, lower-case it, and fall back to
`text/plain` unless the result contains exactly one `/`. -/
def get_content_type (header : String) : String :=
  let ctype := trimSpaces ((header.data.takeWhile (fun c => c ≠ ';')).map lowerChar)
  if ctype.count '/' = 1 then String.mk ctype else "text/plain"

/-- One IIIF canvas as the program reads it: the display `label` and the
single image resource locator `images[0].resource.@id`. -/
structure Canvas where
  label : String
  resourceId : String
  deriving DecidableEq

/-- One entry of the manifest's top-level `metadata[]` array. -/
structure MetadataEntry where
  label : String
  value : String
  deriving DecidableEq

/-- An HTTP response to an image GET: status code, raw `Content-Type`
header value, and body bytes. -/
structure HttpResponse where
  status : Nat
  contentType : String
  body : List Nat
  deriving DecidableEq

/-- An HTTP response whose body has already been decoded to text (the
charset decoding of lines 108-109 and 120 is not modelled; bodies are
carried as `String`). -/
structure TextResponse where
  status : Nat
  text : String

/-- The failure taxonomy of the program: each constructor corresponds to one
`raise RuntimeError(...)` site in src/antenati.py, carrying the same
context (URL, HTTP status, label or raw content type) the message
interpolates. -/
inductive Err where
  | malformedLocator (url : String)
  | upstreamError (url : String) (status : Nat)
  | manifestNotFound (url : String)
  | malformedManifestLine (url : String)
  | metadataFieldMissing (label : String)
  | unknownContentType (url : String) (raw : String)
  deriving DecidableEq

/-- Model of `re.findall(r'(\d+)', s)` for ASCII input: the maximal runs of
decimal digits of `s`, in order. -/
def findall_digits (s : String) : List String :=
  (runsBy Char.isDigit s.data).map String.mk

/-- Model of `AntenatiDownloader.__get_archive_id` (src/antenati.py lines
77-82): collect the numeric substrings of the URL; fail when there are
fewer than two, otherwise return the second one. -/
def get_archive_id (url : String) : Except Err String :=
  let archive_id_pattern := findall_digits url
  if archive_id_pattern.length < 2 then Except.error (Err.malformedLocator url)
  else Except.ok (archive_id_pattern.getD 1 "")

/-- Model of the canvas selection in `AntenatiDownloader.__init__`
(src/antenati.py line 58): the Python slice
`manifest['sequences'][0]['canvases'][first:last]` for non-negative
indices, `last = None` meaning "to the end".  (The CLI defaults are
`first = 0`, `last = None`; negative indices are outside the spec's
stated range and not modelled.) -/
def selectCanvases (canvases : List Canvas) (first : Nat) (last : Option Nat) : List Canvas :=
  match last with
  | some l => (canvases.take l).drop first
  | none => canvases.drop first

/-- Model of `AntenatiDownloader.__get_metadata_content` (src/antenati.py
lines 123-128): the value of the first metadata entry whose label equals
`label`, or a failure when no entry matches. -/
def get_metadata_content (metadata : List MetadataEntry) (label : String) : Except Err String :=
  match metadata.find? (fun i => i.label = label) with
  | some i => Except.ok i.value
  | none => Except.error (Err.metadataFieldMissing label)

/-- Model of `str.splitlines` for `\n`-separated text (the only separator
relevant here): the lines of the text, with no extra empty line for a
trailing `\n`.  Structural recursion so that it evaluates in the kernel. -/
def splitLines : List Char → List (List Char)
  | [] => []
  | [c] => if c = '\n' then [[]] else [[c]]
  | c :: d :: cs =>
    if c = '\n' then [] :: splitLines (d :: cs)
    else
      match splitLines (d :: cs) with
      | [] => [[c]]
      | w :: ws => (c :: w) :: ws

/-- Does `needle` start the list `hay`? -/
def startsWith : List Char → List Char → Bool
  | [], _ => true
  | _ :: _, [] => false
  | a :: as, b :: bs => a = b && startsWith as bs

/-- Does the list contain `needle` as a contiguous substring (Python
`needle in line`)? -/
def containsSub (needle : List Char) : List Char → Bool
  | [] => needle.isEmpty
  | c :: t => startsWith needle (c :: t) || containsSub needle t

/-- The marker token whose presence selects the manifest line
(src/antenati.py line 110). -/
def manifestIdMarker : List Char := "manifestId".data

/-- The character class of the manifest-URL pattern (src/antenati.py line
113): ASCII letters, digits, dot, colon, slash and hyphen. -/
def allowedUrlChar (c : Char) : Bool :=
  c.isAlphanum || c = '.' || c = ':' || c = '/' || c = '-'

/-- Model of the `re.search` call of src/antenati.py line 113 (a
single-quoted, possibly empty run of `allowedUrlChar` characters): the
first such quoted run, scanning left to right.  At a
quote, the greedy class run either reaches a closing quote (a match) or
the search resumes after the opening quote, exactly as the regex engine
backtracks (the class excludes the quote, so only the maximal run can be
closed). -/
def searchQuoted : List Char → Option (List Char)
  | [] => none
  | c :: rest =>
    if c = '\'' then
      match rest.dropWhile allowedUrlChar with
      | q :: _ =>
        if q = '\'' then some (rest.takeWhile allowedUrlChar) else searchQuoted rest
      | [] => searchQuoted rest
    else searchQuoted rest

/-- Model of `AntenatiDownloader.__get_iiif_manifest` (src/antenati.py lines
98-121).  The two network GETs are supplied as data: `landing` is the
response to the landing-page GET of `url`, and `fetch` maps the extracted
manifest URL to the second response.  JSON parsing of the manifest body
(`loads`, line 121) is not modelled: the decoded body text is returned.
Note both non-200 checks (lines 107 and 119) interpolate `self.url`. -/
def get_iiif_manifest (url : String) (landing : TextResponse)
    (fetch : String → TextResponse) : Except Err String :=
  if landing.status ≠ 200 then Except.error (Err.upstreamError url landing.status)
  else
    let html_content := splitLines landing.text.data
    match html_content.find? (fun line => containsSub manifestIdMarker line) with
    | none => Except.error (Err.manifestNotFound url)
    | some manifest_line =>
      match searchQuoted manifest_line with
      | none => Except.error (Err.malformedManifestLine url)
      | some m =>
        let manifest_url := String.mk m
        let reply := fetch manifest_url
        if reply.status ≠ 200 then Except.error (Err.upstreamError url reply.status)
        else Except.ok reply.text

/-- Model of `AntenatiDownloader.__thread_main` (src/antenati.py lines
171-187) for one canvas and its HTTP response.  On success it returns the
file written: the name `slugify(label) + extension` and the body bytes;
the byte count of the unit is the length of that body (line 186). -/
def thread_main (canvas : Canvas) (resp : HttpResponse) : Except Err (String × List Nat) :=
  if resp.status ≠ 200 then Except.error (Err.upstreamError canvas.resourceId resp.status)
  else
    let content_type := get_content_type resp.contentType
    match guess_extension content_type with
    | none => Except.error (Err.unknownContentType canvas.resourceId content_type)
    | some extension => Except.ok (slugify canvas.label ++ extension, resp.body)

/-- Observable events of one `run` invocation, in order: unit submission to
the executor, the `progress.set_total` call, a `progress.update` call,
termination of a unit's thread (its file write, when it succeeds, happens
here), and the re-raise of a unit's exception out of `run`. -/
inductive Event where
  | submit (idx : Nat)
  | setTotal (total : Nat)
  | update
  | finish (idx : Nat)
  | raiseErr (e : Err)
  deriving DecidableEq

/-- The outcome `__thread_main` produces for unit `j` of the run, given the
canvases and their HTTP responses (out-of-range indices yield a junk
failure; theorems only use indices below the canvas count). -/
def unitOutcome (canvases : List Canvas) (responses : List HttpResponse) (j : Nat) :
    Except Err (String × List Nat) :=
  match canvases.get? j, responses.get? j with
  | some c, some r => thread_main c r
  | _, _ => Except.error (Err.upstreamError "" 0)

/-- The `for future in as_completed(...)` loop of `run` (src/antenati.py
lines 218-221), walking the units in completion order with the running
byte total `acc`: each yielded unit contributes a `finish` event and an
`update` tick; a successful unit adds its byte count; the first failing
unit aborts the loop, the remaining in-flight units still terminate
(`ThreadPoolExecutor.__exit__` waits for them, and no cancellation
exists), and the exception is re-raised last. -/
def processCompleted (outcome : Nat → Except Err (String × List Nat)) :
    List Nat → Nat → List Event × Except Err Nat
  | [], acc => ([], Except.ok acc)
  | j :: rest, acc =>
    match outcome j with
    | Except.ok w =>
      let p := processCompleted outcome rest (acc + w.2.length)
      (Event.finish j :: Event.update :: p.1, p.2)
    | Except.error e =>
      (Event.finish j :: Event.update :: (rest.map Event.finish ++ [Event.raiseErr e]),
       Except.error e)

/-- The first failure in completion order, if any. -/
def firstError (outcome : Nat → Except Err (String × List Nat)) : List Nat → Option Err
  | [] => none
  | j :: rest =>
    match outcome j with
    | Except.ok _ => firstError outcome rest
    | Except.error e => some e

/-- The byte count a unit contributes (0 for a failed unit). -/
def unitBytes (outcome : Nat → Except Err (String × List Nat)) (j : Nat) : Nat :=
  match outcome j with
  | Except.ok w => w.2.length
  | Except.error _ => 0

/-- Aggregate observable state of one `run` invocation: its event trace,
the files left on disk (name and bytes, in write order; every unit runs
to completion, so every successful unit's file is written), and the
returned total or re-raised failure. -/
structure RunResult where
  trace : List Event
  disk : List (String × List Nat)
  result : Except Err Nat

/-- Model of `AntenatiDownloader.run` (src/antenati.py lines 212-222) for a
given completion order: all units are submitted first (the dict
comprehension of line 215, in canvas order), then `progress.set_total`
is called with `gallery_length = len(canvases)` (line 216), then the
completion loop runs. -/
def run (canvases : List Canvas) (responses : List HttpResponse) (order : List Nat) :
    RunResult :=
  let outcome := unitOutcome canvases responses
  let p := processCompleted outcome order 0
  { trace := (List.range canvases.length).map Event.submit ++
      Event.setTotal canvases.length :: p.1
    disk := order.filterMap (fun j => (outcome j).toOption)
    result := p.2 }

/-- The ordering property claim C7 asserts of a trace: every
`progress.set_total` call strictly precedes every unit submission. -/
def setTotalFirst (tr : List Event) : Prop :=
  ∀ i j n k, tr.get? i = some (Event.setTotal n) → tr.get? j = some (Event.submit k) → i < j

/-! ### Lemmas about character runs and separators -/

theorem runsBy_cons_neg (p : Char → Bool) (sep : Char) (t : List Char) (h : p sep = false) :
    runsBy p (sep :: t) = runsBy p t := by
  cases t with
  | nil => simp [runsBy, h]
  | cons d cs => simp [runsBy, h]

theorem runsBy_eq_single (p : Char → Bool) :
    ∀ w : List Char, w ≠ [] → (∀ c ∈ w, p c = true) → runsBy p w = [w] := by
  intro w
  induction w with
  | nil => intro h; exact absurd rfl h
  | cons c cs ih =>
    intro _ hall
    cases cs with
    | nil => simp [runsBy, hall c (by simp)]
    | cons d cs2 =>
      have hc : p c = true := hall c (by simp)
      have hd : p d = true := hall d (by simp)
      have hrec := ih (by simp) (fun x hx => hall x (by simp [hx]))
      simp [runsBy, hc, hd, hrec]

theorem runsBy_word_append (p : Char → Bool) (sep : Char) (hsep : p sep = false) :
    ∀ (w t : List Char), w ≠ [] → (∀ c ∈ w, p c = true) →
      runsBy p (w ++ sep :: t) = w :: runsBy p t := by
  intro w
  induction w with
  | nil => intro t h; exact absurd rfl h
  | cons c cs ih =>
    intro t _ hall
    have hc : p c = true := hall c (by simp)
    cases cs with
    | nil =>
      simp only [List.cons_append, List.nil_append]
      simp [runsBy, hc, hsep, runsBy_cons_neg p sep t hsep]
    | cons d cs2 =>
      have hd : p d = true := hall d (by simp)
      have ihh := ih t (by simp) (fun x hx => hall x (by simp [hx]))
      simp only [List.cons_append] at ihh ⊢
      simp [runsBy, hc, hd, ihh]

theorem runsBy_joinSep (p : Char → Bool) (sep : Char) (hsep : p sep = false) :
    ∀ ws : List (List Char), (∀ w ∈ ws, w ≠ [] ∧ ∀ c ∈ w, p c = true) →
      runsBy p (joinSep sep ws) = ws := by
  intro ws
  induction ws with
  | nil => intro _; simp [joinSep, runsBy]
  | cons w ws2 ih =>
    intro hall
    cases ws2 with
    | nil =>
      have h1 := hall w (by simp)
      simpa [joinSep] using runsBy_eq_single p w h1.1 h1.2
    | cons w2 ws3 =>
      have h1 := hall w (by simp)
      rw [show joinSep sep (w :: w2 :: ws3) = w ++ sep :: joinSep sep (w2 :: ws3) from rfl]
      rw [runsBy_word_append p sep hsep w _ h1.1 h1.2]
      rw [ih (fun x hx => hall x (by simp [hx]))]

theorem runsBy_mem (p : Char → Bool) :
    ∀ (l : List Char) (w : List Char), w ∈ runsBy p l →
      w ≠ [] ∧ ∀ c ∈ w, p c = true ∧ c ∈ l := by
  intro l
  induction l with
  | nil => simp [runsBy]
  | cons c cs ih =>
    cases cs with
    | nil =>
      intro w hw
      by_cases hc : p c = true
      · simp only [runsBy, hc, if_true, List.mem_singleton] at hw
        subst hw
        refine ⟨by simp, ?_⟩
        intro x hx
        simp only [List.mem_singleton] at hx
        subst hx
        exact ⟨hc, by simp⟩
      · simp [runsBy, hc] at hw
    | cons d cs2 =>
      intro w hw
      by_cases hc : p c = true
      · by_cases hd : p d = true
        · rcases hr : runsBy p (d :: cs2) with _ | ⟨w0, ws⟩
          · simp only [runsBy, hc, hd, if_true, hr, List.mem_singleton] at hw
            subst hw
            refine ⟨by simp, ?_⟩
            intro x hx
            simp only [List.mem_singleton] at hx
            subst hx
            exact ⟨hc, by simp⟩
          · simp only [runsBy, hc, hd, if_true, hr, List.mem_cons] at hw
            rcases hw with hw | hw
            · subst hw
              have h0 := ih w0 (by rw [hr]; simp)
              refine ⟨by simp, ?_⟩
              intro x hx
              rcases List.mem_cons.mp hx with hx | hx
              · subst hx; exact ⟨hc, by simp⟩
              · have := h0.2 x hx
                exact ⟨this.1, by simp [this.2]⟩
            · have h0 := ih w (by rw [hr]; simp [hw])
              refine ⟨h0.1, ?_⟩
              intro x hx
              have := h0.2 x hx
              exact ⟨this.1, by simp [this.2]⟩
        · simp [runsBy, hc, hd, List.mem_cons] at hw
          rcases hw with hw | hw
          · subst hw
            refine ⟨by simp, ?_⟩
            intro x hx
            simp only [List.mem_singleton] at hx
            subst hx
            exact ⟨hc, by simp⟩
          · have h0 := ih w hw
            refine ⟨h0.1, ?_⟩
            intro x hx
            have := h0.2 x hx
            exact ⟨this.1, by simp [this.2]⟩
      · rw [show runsBy p (c :: d :: cs2) = runsBy p (d :: cs2) by
          simp [runsBy, hc]] at hw
        have h0 := ih w hw
        refine ⟨h0.1, ?_⟩
        intro x hx
        have := h0.2 x hx
        exact ⟨this.1, by simp [this.2]⟩

theorem joinSep_map (f : Char → Char) (sep : Char) :
    ∀ ws : List (List Char),
      (joinSep sep ws).map f = joinSep (f sep) (ws.map (fun w => w.map f)) := by
  intro ws
  induction ws with
  | nil => simp [joinSep]
  | cons w ws2 ih =>
    cases ws2 with
    | nil => simp [joinSep]
    | cons w2 ws3 =>
      simp [joinSep, ih]

theorem map_id_of_mem {α : Type} (f : α → α) :
    ∀ l : List α, (∀ a ∈ l, f a = a) → l.map f = l := by
  intro l
  induction l with
  | nil => simp
  | cons a t ih =>
    intro h
    simp [h a (by simp), ih (fun x hx => h x (by simp [hx]))]

theorem lowerChar_of_lower (d : Char)
    (hd : (97 ≤ d.toNat ∧ d.toNat ≤ 122) ∨ (48 ≤ d.toNat ∧ d.toNat ≤ 57)) :
    lowerChar d = d := by
  unfold lowerChar
  rw [if_neg (by omega)]

theorem sepChar_fix (c : Char) (h : sepChar c ≠ ' ') : sepChar (sepChar c) = sepChar c := by
  by_cases hb : isAsciiAlnumLower (lowerChar c) = true
  · have hval : sepChar c = lowerChar c := by simp [sepChar, hb]
    have hn : (97 ≤ (lowerChar c).toNat ∧ (lowerChar c).toNat ≤ 122) ∨
        (48 ≤ (lowerChar c).toNat ∧ (lowerChar c).toNat ≤ 57) := by
      have hb2 := hb
      unfold isAsciiAlnumLower at hb2
      exact of_decide_eq_true hb2
    have hfix : lowerChar (lowerChar c) = lowerChar c := lowerChar_of_lower _ hn
    rw [hval, sepChar, hfix, hb]
    simp
  · exact absurd (by simp [sepChar, hb]) h

/-- Claim C8: the slug operation is idempotent: for every display label
string `x`, `slug(slug(x)) = slug(x)`. -/
theorem slugify_idempotent (s : String) : slugify (slugify s) = slugify s := by
  unfold slugify
  have hmem : ∀ w ∈ runsBy notSpace (s.data.map sepChar),
      w ≠ [] ∧ ∀ c ∈ w, notSpace c = true ∧ c ∈ s.data.map sepChar :=
    fun w hw => runsBy_mem notSpace _ w hw
  have hfix : ∀ w ∈ runsBy notSpace (s.data.map sepChar), w.map sepChar = w := by
    intro w hw
    have h2 := (hmem w hw).2
    apply map_id_of_mem
    intro a ha
    have h3 := h2 a ha
    rcases List.mem_map.mp h3.2 with ⟨c0, _, hc0⟩
    have hne : sepChar c0 ≠ ' ' := by
      rw [hc0]
      intro hcontra
      rw [hcontra] at h3
      simp [notSpace] at h3
    rw [← hc0, sepChar_fix c0 hne, hc0]
  congr 1
  have hdata : (String.mk (joinSep '-' (runsBy notSpace (s.data.map sepChar)))).data =
      joinSep '-' (runsBy notSpace (s.data.map sepChar)) := rfl
  rw [hdata, joinSep_map sepChar '-']
  have hsepc : sepChar '-' = ' ' := by decide
  rw [hsepc]
  rw [map_id_of_mem _ _ hfix]
  rw [runsBy_joinSep notSpace ' ' (by decide) _
    (fun w hw => ⟨(hmem w hw).1, fun c hc => ((hmem w hw).2 c hc).1⟩)]

/-! ### Lemmas about the fetch loop -/

theorem processCompleted_snd_ok (outcome : Nat → Except Err (String × List Nat)) :
    ∀ ord : List Nat, (∀ j ∈ ord, (outcome j).isOk = true) → ∀ acc : Nat,
      (processCompleted outcome ord acc).2 =
        Except.ok (acc + (ord.map (unitBytes outcome)).sum) := by
  intro ord
  induction ord with
  | nil => intro _ acc; simp [processCompleted]
  | cons j rest ih =>
    intro h acc
    cases hj : outcome j with
    | error e =>
      have hcontra := h j (by simp)
      rw [hj] at hcontra
      simp [Except.isOk, Except.toBool] at hcontra
    | ok w =>
      simp only [processCompleted, hj]
      rw [ih (fun x hx => h x (by simp [hx])) (acc + w.2.length)]
      simp [unitBytes, hj, Nat.add_assoc]

theorem processCompleted_error_spec (outcome : Nat → Except Err (String × List Nat)) :
    ∀ (ord : List Nat) (e : Err), firstError outcome ord = some e → ∀ acc : Nat,
      (processCompleted outcome ord acc).2 = Except.error e ∧
      ∃ pre, (processCompleted outcome ord acc).1 = pre ++ [Event.raiseErr e] ∧
        ∀ j ∈ ord, Event.finish j ∈ pre := by
  intro ord
  induction ord with
  | nil => intro e h; simp [firstError] at h
  | cons j rest ih =>
    intro e h acc
    cases hj : outcome j with
    | error e2 =>
      have he : e2 = e := by
        simp only [firstError, hj, Option.some.injEq] at h
        exact h
      subst he
      refine ⟨by simp [processCompleted, hj], ?_⟩
      refine ⟨Event.finish j :: Event.update :: rest.map Event.finish, ?_, ?_⟩
      · simp [processCompleted, hj]
      · intro x hx
        rcases List.mem_cons.mp hx with hx | hx
        · subst hx; simp
        · simp only [List.mem_cons, List.mem_map]
          exact Or.inr (Or.inr ⟨x, hx, rfl⟩)
    | ok w =>
      simp only [firstError, hj] at h
      obtain ⟨h1, pre, hp, hmem⟩ := ih e h (acc + w.2.length)
      refine ⟨by simp [processCompleted, hj, h1], ?_⟩
      refine ⟨Event.finish j :: Event.update :: pre, ?_, ?_⟩
      · simp [processCompleted, hj, hp]
      · intro x hx
        rcases List.mem_cons.mp hx with hx | hx
        · subst hx; simp
        · simp [hmem x hx]

theorem processCompleted_events (outcome : Nat → Except Err (String × List Nat)) :
    ∀ (ord : List Nat) (acc : Nat) (ev : Event),
      ev ∈ (processCompleted outcome ord acc).1 →
      (∀ k, ev ≠ Event.submit k) ∧ ∀ m, ev ≠ Event.setTotal m := by
  intro ord
  induction ord with
  | nil => intro acc ev h; simp [processCompleted] at h
  | cons j rest ih =>
    intro acc ev h
    cases hj : outcome j with
    | ok w =>
      simp only [processCompleted, hj] at h
      rcases List.mem_cons.mp h with h | h
      · subst h; exact ⟨fun k => by simp, fun m => by simp⟩
      rcases List.mem_cons.mp h with h | h
      · subst h; exact ⟨fun k => by simp, fun m => by simp⟩
      · exact ih _ ev h
    | error e =>
      simp only [processCompleted, hj] at h
      rcases List.mem_cons.mp h with h | h
      · subst h; exact ⟨fun k => by simp, fun m => by simp⟩
      rcases List.mem_cons.mp h with h | h
      · subst h; exact ⟨fun k => by simp, fun m => by simp⟩
      rcases List.mem_append.mp h with h | h
      · rcases List.mem_map.mp h with ⟨x, _, hx⟩
        subst hx; exact ⟨fun k => by simp, fun m => by simp⟩
      · simp only [List.mem_singleton] at h
        subst h; exact ⟨fun k => by simp, fun m => by simp⟩

/-- Claim C1: in every run in which at least one download unit fails, `run`
fails with the cause of the first failure in completion order; the
re-raise is the last trace event, after every unit (all of them, since no
cancellation exists) has finished; and the file of every successful unit
is on disk — no rollback of sibling results. -/
theorem run_fails_with_first_error (canvases : List Canvas) (responses : List HttpResponse)
    (order : List Nat) (e : Err)
    (hperm : order.Perm (List.range canvases.length))
    (hfe : firstError (unitOutcome canvases responses) order = some e) :
    (run canvases responses order).result = Except.error e ∧
    (∃ pre, (run canvases responses order).trace = pre ++ [Event.raiseErr e] ∧
      ∀ j < canvases.length, Event.finish j ∈ pre) ∧
    (∀ j < canvases.length, ∀ w, unitOutcome canvases responses j = Except.ok w →
      w ∈ (run canvases responses order).disk) := by
  obtain ⟨h1, pre, hp, hmem⟩ := processCompleted_error_spec _ order e hfe 0
  have hord : ∀ j, j < canvases.length → j ∈ order := fun j hj =>
    hperm.mem_iff.mpr (List.mem_range.mpr hj)
  refine ⟨h1, ?_, ?_⟩
  · refine ⟨(List.range canvases.length).map Event.submit ++
      Event.setTotal canvases.length :: pre, ?_, ?_⟩
    · show (List.range canvases.length).map Event.submit ++
        Event.setTotal canvases.length ::
          (processCompleted (unitOutcome canvases responses) order 0).1 = _
      rw [hp]
      simp
    · intro j hj
      have := hmem j (hord j hj)
      simp [this]
  · intro j hj w hw
    show w ∈ order.filterMap (fun i => (unitOutcome canvases responses i).toOption)
    rw [List.mem_filterMap]
    exact ⟨j, hord j hj, by simp [hw, Except.toOption]⟩

/-- Witness for C1: a two-unit run whose second unit (in completion order)
returns HTTP 404 fails with that upstream error. -/
theorem run_fails_with_first_error_witness :
    (run [⟨"Pagina 1", "https://img/1"⟩, ⟨"Pagina 2", "https://img/2"⟩]
        [⟨200, "image/jpeg", [10, 20]⟩, ⟨404, "image/jpeg", []⟩]
        [0, 1]).result = Except.error (Err.upstreamError "https://img/2" 404) := by
  have h := run_fails_with_first_error
    [⟨"Pagina 1", "https://img/1"⟩, ⟨"Pagina 2", "https://img/2"⟩]
    [⟨200, "image/jpeg", [10, 20]⟩, ⟨404, "image/jpeg", []⟩]
    [0, 1] (Err.upstreamError "https://img/2" 404) (by decide) rfl
  exact h.1

/-- Claim C2: when all download units succeed, `run` returns exactly the sum
of their byte counts, and that total is the same for every completion
order (the right-hand side is a sum over the canonical index order and
does not mention the completion order). -/
theorem run_returns_sum_of_bytes (canvases : List Canvas) (responses : List HttpResponse)
    (order : List Nat)
    (hperm : order.Perm (List.range canvases.length))
    (hok : ∀ j ∈ order, (unitOutcome canvases responses j).isOk = true) :
    (run canvases responses order).result =
      Except.ok (((List.range canvases.length).map
        (unitBytes (unitOutcome canvases responses))).sum) := by
  have h := processCompleted_snd_ok (unitOutcome canvases responses) order hok 0
  have hsum := (hperm.map (unitBytes (unitOutcome canvases responses))).sum_eq
  show (processCompleted (unitOutcome canvases responses) order 0).2 = _
  rw [h, ← hsum]
  simp

/-- Witness for C2: a two-unit run with byte counts 2 and 3 returns 5 under
the reversed completion order. -/
theorem run_returns_sum_of_bytes_witness :
    (run [⟨"Pagina 1", "u1"⟩, ⟨"Pagina 2", "u2"⟩]
        [⟨200, "image/jpeg", [10, 20]⟩, ⟨200, "image/png", [30, 40, 50]⟩]
        [1, 0]).result = Except.ok 5 :=
  (run_returns_sum_of_bytes _ _ [1, 0] (by decide) (by decide)).trans rfl

/-- Counterexample to claim C7: in the run of a one-canvas gallery the unit
is submitted (line 215) before `progress.set_total` is called (line 216),
so the progress sink is not initialized before scheduling. -/
theorem setTotal_not_before_submit_counterexample :
    ¬ setTotalFirst (run [⟨"Pagina 1", "https://img/1"⟩]
        [⟨200, "image/jpeg", [1]⟩] [0]).trace := by
  intro h
  have h2 := h 1 0 1 0 rfl rfl
  omega

/-- Amended claim C7: in every execution of `run`, the progress sink is
initialized with the total item count after all download units have been
submitted and before any completion is consumed: the trace is exactly the
submissions, then the `set_total` call, then a remainder containing no
submission and no further `set_total`. -/
theorem run_setTotal_after_submits (canvases : List Canvas) (responses : List HttpResponse)
    (order : List Nat) :
    ∃ rest, (run canvases responses order).trace =
        (List.range canvases.length).map Event.submit ++
          Event.setTotal canvases.length :: rest ∧
      ∀ ev ∈ rest, (∀ k, ev ≠ Event.submit k) ∧ ∀ m, ev ≠ Event.setTotal m := by
  refine ⟨(processCompleted (unitOutcome canvases responses) order 0).1, rfl, ?_⟩
  intro ev hev
  exact processCompleted_events _ order 0 ev hev

/-- Claim C9: for an empty selected canvas sequence, `run` succeeds with a
total of 0 bytes, writes nothing to disk, schedules no download unit, and
still initializes the progress sink with total count 0. -/
theorem run_empty_gallery (responses : List HttpResponse) (order : List Nat)
    (hperm : order.Perm (List.range (List.length ([] : List Canvas)))) :
    (run [] responses order).trace = [Event.setTotal 0] ∧
    (run [] responses order).disk = [] ∧
    (run [] responses order).result = Except.ok 0 ∧
    ∀ k, Event.submit k ∉ (run [] responses order).trace := by
  have horder : order = [] := List.Perm.eq_nil (by simpa using hperm)
  subst horder
  refine ⟨rfl, rfl, rfl, ?_⟩
  intro k hk
  simp [run, processCompleted] at hk

/-- Witness for C9: the empty run returns 0. -/
theorem run_empty_gallery_witness :
    (run [] [] []).result = Except.ok 0 :=
  (run_empty_gallery [] [] (by decide)).2.2.1

/-- Counterexample to claim C3: `application/octet-stream` does have an
entry in the extension table (CPython maps it to `.bin`), so extension
derivation succeeds and a unit with that content type does not fail with
`UnknownContentType`; it writes `pagina-1.bin` instead. -/
theorem octet_stream_has_extension_counterexample :
    guess_extension (get_content_type "application/octet-stream") = some ".bin" ∧
    thread_main ⟨"Pagina 1", "https://img/1"⟩
        ⟨200, "application/octet-stream", [1, 2, 3]⟩ =
      Except.ok ("pagina-1.bin", [1, 2, 3]) ∧
    thread_main ⟨"Pagina 1", "https://img/1"⟩
        ⟨200, "application/octet-stream", [1, 2, 3]⟩ ≠
      Except.error (Err.unknownContentType "https://img/1" "application/octet-stream") := by
  have he : thread_main ⟨"Pagina 1", "https://img/1"⟩
      ⟨200, "application/octet-stream", [1, 2, 3]⟩ =
      Except.ok ("pagina-1.bin", [1, 2, 3]) := rfl
  refine ⟨by decide, he, ?_⟩
  intro h
  exact Except.noConfusion (he.symm.trans h)

/-- Amended claim C3: a download unit fails with `UnknownContentType`
carrying the raw parsed content type exactly when the extension table has
no mapping for it (for example `application/x-unknown`);
`application/octet-stream` is not such a value, since the table maps it
to `.bin`. -/
theorem thread_main_unknown_content_type (canvas : Canvas) (resp : HttpResponse)
    (hstatus : resp.status = 200)
    (hext : guess_extension (get_content_type resp.contentType) = none) :
    thread_main canvas resp =
      Except.error (Err.unknownContentType canvas.resourceId
        (get_content_type resp.contentType)) := by
  unfold thread_main
  rw [if_neg (by omega)]
  simp [hext]

/-- Witness for the amended C3: a content type absent from the table makes
the unit fail with `UnknownContentType` carrying that raw value. -/
theorem thread_main_unknown_content_type_witness :
    thread_main ⟨"Pagina 1", "https://img/1"⟩ ⟨200, "application/x-unknown", [1]⟩ =
      Except.error (Err.unknownContentType "https://img/1" "application/x-unknown") :=
  (thread_main_unknown_content_type ⟨"Pagina 1", "https://img/1"⟩
    ⟨200, "application/x-unknown", [1]⟩ rfl (by decide)).trans rfl

/-- Claim C4: a locator with fewer than two numeric substrings (maximal
digit runs) makes `__get_archive_id` fail with the malformed-locator
error; with at least two, it returns the second numeric token.  The last
conjunct gives the numeric substrings their meaning: every token found is
a nonempty all-digit string. -/
theorem get_archive_id_spec (url : String) :
    ((findall_digits url).length < 2 →
      get_archive_id url = Except.error (Err.malformedLocator url)) ∧
    (2 ≤ (findall_digits url).length →
      ∃ s, (findall_digits url).get? 1 = some s ∧ get_archive_id url = Except.ok s) ∧
    ∀ r ∈ findall_digits url, r ≠ "" ∧ ∀ c ∈ r.data, c.isDigit = true := by
  refine ⟨?_, ?_, ?_⟩
  · intro h
    simp [get_archive_id, h]
  · intro h
    rcases hl : (findall_digits url).get? 1 with _ | s
    · rw [List.get?_eq_none] at hl
      omega
    · refine ⟨s, rfl, ?_⟩
      have hgd : (findall_digits url).getD 1 "" = s := by
        rw [List.getD_eq_get?, hl]
        rfl
      rw [get_archive_id]
      rw [if_neg (by omega), hgd]
  · intro r hr
    rcases List.mem_map.mp hr with ⟨w, hw, hws⟩
    have h0 := runsBy_mem Char.isDigit url.data w hw
    subst hws
    constructor
    · intro hc
      rw [show ("" : String) = String.mk [] from rfl] at hc
      exact h0.1 (by injection hc)
    · intro c hc
      exact (h0.2 c hc).1

/-- Witness for C4: a locator with one numeric run fails; a locator with
three numeric runs yields the second. -/
theorem get_archive_id_spec_witness :
    get_archive_id "https://antenati/x9y" =
      Except.error (Err.malformedLocator "https://antenati/x9y") ∧
    ∃ s, (findall_digits "a1b22c3").get? 1 = some s ∧
      get_archive_id "a1b22c3" = Except.ok s :=
  ⟨(get_archive_id_spec "https://antenati/x9y").1 (by decide),
   (get_archive_id_spec "a1b22c3").2.1 (by decide)⟩

/-- Claim C5: applying the item range `[first, last)` to the canvas
sequence selects exactly `last - first` items when
`first ≤ last ≤ len(canvases)`, and `len(canvases) - first` items when
`last` is absent. -/
theorem selectCanvases_count (canvases : List Canvas) (first lastIdx : Nat)
    (h1 : first ≤ lastIdx) (h2 : lastIdx ≤ canvases.length) :
    (selectCanvases canvases first (some lastIdx)).length = lastIdx - first ∧
    (first ≤ canvases.length →
      (selectCanvases canvases first none).length = canvases.length - first) := by
  constructor
  · simp only [selectCanvases, List.length_drop, List.length_take]
    omega
  · intro h3
    simp [selectCanvases, List.length_drop]

/-- Witness for C5: a three-canvas gallery with `first = 1`, `last = 2`
selects 1 item; with `last` absent it selects 2. -/
theorem selectCanvases_count_witness :
    (selectCanvases [⟨"a", "u"⟩, ⟨"b", "v"⟩, ⟨"c", "w"⟩] 1 (some 2)).length = 1 ∧
    (selectCanvases [⟨"a", "u"⟩, ⟨"b", "v"⟩, ⟨"c", "w"⟩] 1 none).length = 2 := by
  have h := selectCanvases_count [⟨"a", "u"⟩, ⟨"b", "v"⟩, ⟨"c", "w"⟩] 1 2
    (by decide) (by decide)
  exact ⟨h.1, h.2 (by decide)⟩

/-- Claim C6: `__get_metadata_content` returns the value of the first
metadata entry whose label matches exactly, fails with the
missing-field error exactly when no entry matches, and is deterministic
(a pure function of the manifest and label). -/
theorem get_metadata_content_spec (metadata : List MetadataEntry) (label : String) :
    (∀ v, get_metadata_content metadata label = Except.ok v →
      ∃ pre entry post, metadata = pre ++ entry :: post ∧ entry.label = label ∧
        entry.value = v ∧ ∀ x ∈ pre, x.label ≠ label) ∧
    (get_metadata_content metadata label =
        Except.error (Err.metadataFieldMissing label) ↔
      ∀ x ∈ metadata, x.label ≠ label) ∧
    get_metadata_content metadata label = get_metadata_content metadata label := by
  refine ⟨?_, ?_, rfl⟩
  · induction metadata with
    | nil =>
      intro v hv
      simp [get_metadata_content] at hv
    | cons a t ih =>
      intro v hv
      by_cases ha : a.label = label
      · have hfind : get_metadata_content (a :: t) label = Except.ok a.value := by
          unfold get_metadata_content
          rw [List.find?_cons_of_pos _ (by simp [ha])]
        rw [hfind] at hv
        have hveq : a.value = v := by
          simpa using hv
        exact ⟨[], a, t, by simp, ha, hveq, by simp⟩
      · have hfind : get_metadata_content (a :: t) label = get_metadata_content t label := by
          unfold get_metadata_content
          rw [List.find?_cons_of_neg _ (by simp [ha])]
        rw [hfind] at hv
        obtain ⟨pre, entry, post, heq, hel, hev, hpre⟩ := ih v hv
        refine ⟨a :: pre, entry, post, by simp [heq], hel, hev, ?_⟩
        intro x hx
        rcases List.mem_cons.mp hx with hx | hx
        · subst hx; exact ha
        · exact hpre x hx
  · constructor
    · intro h x hx hlab
      rcases hf : metadata.find? (fun i => i.label = label) with _ | i
      · rw [List.find?_eq_none] at hf
        exact hf x hx (by simp [hlab])
      · rw [show get_metadata_content metadata label = Except.ok i.value by
          unfold get_metadata_content
          rw [hf]] at h
        exact Except.noConfusion h
    · intro h
      have hf : metadata.find? (fun i => i.label = label) = none :=
        List.find?_eq_none.mpr (fun x hx => by simp [h x hx])
      unfold get_metadata_content
      rw [hf]

/-- Witness for C6: in a two-entry metadata list the first matching entry's
value is returned, and a label matching no entry yields the
missing-field error. -/
theorem get_metadata_content_spec_witness :
    (∃ pre entry post,
      ([⟨"Contesto archivistico", "ctx"⟩, ⟨"Titolo", "1850"⟩] : List MetadataEntry) =
        pre ++ entry :: post ∧ entry.label = "Titolo" ∧ entry.value = "1850" ∧
        ∀ x ∈ pre, x.label ≠ "Titolo") ∧
    get_metadata_content [⟨"Contesto archivistico", "ctx"⟩, ⟨"Titolo", "1850"⟩]
        "Datazione" = Except.error (Err.metadataFieldMissing "Datazione") :=
  ⟨(get_metadata_content_spec
      [⟨"Contesto archivistico", "ctx"⟩, ⟨"Titolo", "1850"⟩] "Titolo").1 "1850" rfl,
   (get_metadata_content_spec
      [⟨"Contesto archivistico", "ctx"⟩, ⟨"Titolo", "1850"⟩] "Datazione").2.1.mpr
      (by decide)⟩

/-- Claim C10: when the second discovery GET (the manifest document fetch)
returns a non-200 status, the raised upstream error carries the
landing-page locator `url`, not the manifest document's own locator. -/
theorem get_iiif_manifest_second_error_url (url : String) (landing : TextResponse)
    (fetch : String → TextResponse) (line m : List Char)
    (h200 : landing.status = 200)
    (hline : (splitLines landing.text.data).find?
      (fun l => containsSub manifestIdMarker l) = some line)
    (hq : searchQuoted line = some m)
    (hbad : (fetch (String.mk m)).status ≠ 200) :
    get_iiif_manifest url landing fetch =
      Except.error (Err.upstreamError url (fetch (String.mk m)).status) ∧
    (String.mk m ≠ url → ∀ s2,
      Err.upstreamError url (fetch (String.mk m)).status ≠
        Err.upstreamError (String.mk m) s2) := by
  constructor
  · unfold get_iiif_manifest
    rw [if_neg (by omega)]
    simp only [hline, hq]
    rw [if_pos hbad]
  · intro hne s2 h
    injection h with hu hs
    exact hne hu.symm

/-- Witness for C10: a concrete landing page whose manifest fetch returns
404 produces an upstream error naming the landing URL. -/
theorem get_iiif_manifest_second_error_url_witness :
    get_iiif_manifest "https://land/1/2"
        ⟨200, "zz\nvar manifestId = 'https://iiif/m';\nyy"⟩
        (fun _ => ⟨404, ""⟩) =
      Except.error (Err.upstreamError "https://land/1/2" 404) := by
  have h := get_iiif_manifest_second_error_url "https://land/1/2"
    ⟨200, "zz\nvar manifestId = 'https://iiif/m';\nyy"⟩
    (fun _ => ⟨404, ""⟩)
    "var manifestId = 'https://iiif/m';".data "https://iiif/m".data
    rfl rfl rfl (by decide)
  exact h.1
